import Mathlib

/-!
Verification of the sqs-consume consumer (src/consumer/consumer.go).

The Go code is shallowly embedded: pure helpers (`chunk`) become Lean
functions; the worker loop (`handleMessages`) becomes a function from a
list of per-iteration inputs (cancellation / receive outcome) to the
trace of transport and handler events it emits together with its return
value; construction (`NewSQSConsumer`) becomes a function with explicit
environment and configuration arguments returning `Except`.

Constants and types declared outside consumer.go (the `SQSConf` fields,
the `DeleteStrategy*` and `Default*` constants, and the sentinel errors)
are modelled from the spec where noted.
-/

namespace SqsConsume

/-- An SQS message as received by the consumer (`types.Message`): the
fields actually read by consumer.go are `MessageId`, `Body`,
`MessageAttributes` and `ReceiptHandle`. -/
structure Message where
  messageId : String
  body : String
  messageAttributes : List (String × String)
  receiptHandle : String
deriving Repr, DecidableEq

/-- `types.DeleteMessageBatchRequestEntry` as built in `deleteSqsMessages`:
`Id` from the message id, `ReceiptHandle` from the receipt handle. -/
structure DeleteMessageBatchRequestEntry where
  id : String
  receiptHandle : String
deriving Repr, DecidableEq

/-- The user handler `ConsumerFn`: takes the message body and attributes,
returns an error (`some e`) or nil (`none`). -/
def ConsumerFn : Type := String → List (String × String) → Option String

/-- Modelled from the spec: the `DeleteStrategy` enum is a string type
declared outside src/; its `Immediate` constant. -/
def DeleteStrategyImmediate : String := "IMMEDIATE"

/-- Modelled from the spec: the `OnSuccess` constant of the
`DeleteStrategy` string type declared outside src/. -/
def DeleteStrategyOnSuccess : String := "ON_SUCCESS"

/-- Modelled from the spec: default concurrency constant declared outside
src/ (spec table gives 5 as the illustrative default). -/
def DefaultConcurrency : Int := 5

/-- Modelled from the spec: default long-poll wait time constant declared
outside src/ (spec table: 10). -/
def DefaultWaitTimeSeconds : Int := 10

/-- Modelled from the spec: default max messages per poll constant
declared outside src/ (spec table: 10). -/
def DefaultMaxNumberOfMessages : Int := 10

/-- Modelled from the spec: sentinel error for AWS credential/region
configuration failure, declared outside src/. -/
def SentinelErrorConfigAws : String := "aws configuration error"

/-- Modelled from the spec: sentinel error for a nil configuration
object, declared outside src/. -/
def SentinelErrorConfigIsNil : String := "config is nil"

/-- Modelled from the spec: sentinel error for an empty queue
identifier, declared outside src/. -/
def SentinelErrorQueueNotSet : String := "queue not set"

/-- The configuration object `SQSConf` (declared outside src/; fields
modelled from the spec and from their uses in consumer.go). -/
structure SQSConf where
  Queue : String
  DeleteStrategy : String
  Concurrency : Int
  WaitTimeSeconds : Int
  MaxNumberOfMessages : Int
  VisibilityTimeout : Int
deriving Repr, DecidableEq

/-- The pool object `SQS`: holds the configuration pointer (the
transport client handle carries no observable state in this model). -/
structure SQS where
  config : SQSConf
deriving Repr, DecidableEq

/-- `chunk` from consumer.go, lines 173-187: repeatedly split off a
prefix of `chunkSize` while at least `chunkSize` items remain, then
append the non-empty remainder.  (For `chunkSize = 0` the Go loop does
not terminate; the recursion guard makes the Lean function total, and
every theorem about it assumes `0 < chunkSize`.) -/
def chunk (rows : List Message) (chunkSize : Nat) : List (List Message) :=
  if h : 0 < chunkSize ∧ chunkSize ≤ rows.length then
    rows.take chunkSize :: chunk (rows.drop chunkSize) chunkSize
  else if 0 < rows.length then [rows] else []
termination_by rows.length
decreasing_by
  simp only [List.length_drop]
  omega

/-- The AWS environment variables read by `NewSQSConsumer`. -/
structure Env where
  awsAccessKeyId : String
  awsSecretAccessKey : String
  awsRegion : String
deriving Repr, DecidableEq

/-- The four zero-value defaulting assignments of `NewSQSConsumer`
(consumer.go lines 44-58), applied in place to the caller's `SQSConf`. -/
def applyDefaults (conf : SQSConf) : SQSConf :=
  let conf := if conf.DeleteStrategy.length = 0 then
    { conf with DeleteStrategy := DeleteStrategyImmediate } else conf
  let conf := if conf.Concurrency = 0 then
    { conf with Concurrency := DefaultConcurrency } else conf
  let conf := if conf.WaitTimeSeconds = 0 then
    { conf with WaitTimeSeconds := DefaultWaitTimeSeconds } else conf
  if conf.MaxNumberOfMessages = 0 then
    { conf with MaxNumberOfMessages := DefaultMaxNumberOfMessages } else conf

/-- `NewSQSConsumer` (consumer.go lines 17-61).  The environment variables
and the success of `config.LoadDefaultConfig` are explicit arguments; a
nil `conf` pointer is `none`.  Because the Go code mutates `conf` through
the caller's pointer and stores that same pointer in the returned pool,
the result carries both views: the caller's configuration object after
the call, and the pool. -/
def NewSQSConsumer (env : Env) (awsLoadOk : Bool) (conf : Option SQSConf) :
    Except String (SQSConf × SQS) :=
  if env.awsAccessKeyId = "" ∨ env.awsSecretAccessKey = "" ∨ env.awsRegion = "" then
    .error SentinelErrorConfigAws
  else if ¬ awsLoadOk then
    .error SentinelErrorConfigAws
  else
    match conf with
    | none => .error SentinelErrorConfigIsNil
    | some c =>
      if c.Queue = "" then .error SentinelErrorQueueNotSet
      else
        let c := applyDefaults c
        .ok (c, { config := c })

/-- Observable actions of one worker: transport calls, the idle sleep,
and handler invocations (`consumeFn([]byte(*msg.Body), msg.MessageAttributes)`). -/
inductive Event where
  | receiveCall
  | sleep (seconds : Nat)
  | deleteBatchCall (entries : List DeleteMessageBatchRequestEntry)
  | handlerCall (body : String) (attrs : List (String × String))
deriving Repr, DecidableEq

/-- The batch entries built from one chunk in `deleteSqsMessages`
(consumer.go lines 150-157). -/
def entriesOf (c : List Message) : List DeleteMessageBatchRequestEntry :=
  c.map (fun v => { id := v.messageId, receiptHandle := v.receiptHandle })

/-- The transport's `DeleteMessageBatch` outcome, as an oracle from the
submitted entries to an optional error. -/
def DeleteOracle : Type := List DeleteMessageBatchRequestEntry → Option String

/-- The chunk loop of `deleteSqsMessages` (consumer.go lines 149-167):
one `DeleteMessageBatch` call per chunk, stopping at the first transport
error. -/
def deleteChunksLoop (deleteErr : DeleteOracle) :
    List (List Message) → List Event × Option String
  | [] => ([], none)
  | c :: rest =>
    let batch := entriesOf c
    match deleteErr batch with
    | some e => ([Event.deleteBatchCall batch], some e)
    | none =>
      let r := deleteChunksLoop deleteErr rest
      (Event.deleteBatchCall batch :: r.1, r.2)

/-- `deleteSqsMessages` (consumer.go lines 142-171): no transport call at
all on an empty list, otherwise chunk into batches of 10 and delete each. -/
def deleteSqsMessages (deleteErr : DeleteOracle) (msg : List Message) :
    List Event × Option String :=
  if msg.length = 0 then ([], none)
  else deleteChunksLoop deleteErr (chunk msg 10)

/-- The dispatch loop of `handleMessages` (consumer.go lines 107-117):
invoke the handler on each message in receipt order; a handler error is
logged and skipped; on success under `OnSuccess` the message is appended
to `toDelete`.  Returns the events and the final `toDelete`. -/
def dispatchLoop (strategy : String) (consumeFn : ConsumerFn) :
    List Message → List Event × List Message
  | [] => ([], [])
  | msg :: rest =>
    let r := dispatchLoop strategy consumeFn rest
    match consumeFn msg.body msg.messageAttributes with
    | some _ => (Event.handlerCall msg.body msg.messageAttributes :: r.1, r.2)
    | none =>
      if strategy = DeleteStrategyOnSuccess then
        (Event.handlerCall msg.body msg.messageAttributes :: r.1, msg :: r.2)
      else
        (Event.handlerCall msg.body msg.messageAttributes :: r.1, r.2)

/-- The non-empty-receive body of one `handleMessages` iteration
(consumer.go lines 101-121): optional Immediate pre-delete, dispatch,
then delete of `toDelete`. -/
def pollCycle (strategy : String) (consumeFn : ConsumerFn)
    (deleteErr : DeleteOracle) (msgs : List Message) :
    List Event × Option String :=
  let pre :=
    if strategy = DeleteStrategyImmediate then deleteSqsMessages deleteErr msgs
    else ([], none)
  match pre.2 with
  | some e => (pre.1, some e)
  | none =>
    let d := dispatchLoop strategy consumeFn msgs
    let post := deleteSqsMessages deleteErr d.2
    (pre.1 ++ d.1 ++ post.1, post.2)

/-- What one iteration of the worker loop observes: the cancellation
checkpoint fires, or the receive call errors, or it returns a batch. -/
inductive CycleInput where
  | cancelled
  | receiveErr (e : String)
  | received (msgs : List Message)
deriving Repr, DecidableEq

/-- `handleMessages` (consumer.go lines 84-125) over a finite schedule of
per-iteration inputs.  Result `some none` is `return nil` (cancellation
checkpoint), `some (some e)` is `return err`, and `none` means the
schedule ran out with the loop still running. -/
def handleMessages (strategy : String) (consumeFn : ConsumerFn)
    (deleteErr : DeleteOracle) :
    List CycleInput → List Event × Option (Option String)
  | [] => ([], none)
  | CycleInput.cancelled :: _ => ([], some none)
  | CycleInput.receiveErr e :: _ => ([Event.receiveCall], some (some e))
  | CycleInput.received msgs :: rest =>
    if msgs.length = 0 then
      let r := handleMessages strategy consumeFn deleteErr rest
      (Event.receiveCall :: Event.sleep 1 :: r.1, r.2)
    else
      match pollCycle strategy consumeFn deleteErr msgs with
      | (cevs, some e) => (Event.receiveCall :: cevs, some (some e))
      | (cevs, none) =>
        let r := handleMessages strategy consumeFn deleteErr rest
        (Event.receiveCall :: (cevs ++ r.1), r.2)

/-- Concrete messages for evaluating the definitions on closed inputs. -/
def msgA : Message :=
  { messageId := "A", body := "a", messageAttributes := [], receiptHandle := "rA" }

def msgB : Message :=
  { messageId := "B", body := "b", messageAttributes := [], receiptHandle := "rB" }

def msgC : Message :=
  { messageId := "C", body := "c", messageAttributes := [], receiptHandle := "rC" }

/-- A handler that always succeeds. -/
def okFn : ConsumerFn := fun _ _ => none

/-- A handler that fails exactly on body "b". -/
def failBFn : ConsumerFn := fun body _ => if body = "b" then some "boom" else none

/-- A transport whose DeleteMessageBatch always succeeds. -/
def okDelete : DeleteOracle := fun _ => none

/-- A transport whose DeleteMessageBatch always fails. -/
def badDelete : DeleteOracle := fun _ => some "delete failed"

/-- A complete environment for evaluating `NewSQSConsumer`. -/
def demoEnv : Env :=
  { awsAccessKeyId := "k", awsSecretAccessKey := "s", awsRegion := "r" }

/-- A configuration with every defaultable field zero-valued. -/
def zeroConf : SQSConf :=
  { Queue := "q", DeleteStrategy := "", Concurrency := 0, WaitTimeSeconds := 0,
    MaxNumberOfMessages := 0, VisibilityTimeout := 0 }

/-- A configuration with a non-empty delete strategy recognized by
neither equality test in the code. -/
def bogusConf : SQSConf :=
  { Queue := "q", DeleteStrategy := "BOGUS", Concurrency := 2, WaitTimeSeconds := 3,
    MaxNumberOfMessages := 4, VisibilityTimeout := 5 }

theorem chunk_nil (k : Nat) : chunk [] k = [] := by
  rw [chunk]
  simp
  omega

theorem chunk_flatten (rows : List Message) (k : Nat) (hk : 0 < k) :
    (chunk rows k).flatten = rows := by
  rw [chunk]
  split
  · rename_i h
    rw [List.flatten_cons, chunk_flatten (rows.drop k) k hk]
    exact List.take_append_drop k rows
  · rename_i h
    split
    · simp
    · rename_i hz
      have hr : rows = [] := List.length_eq_zero.mp (by omega)
      simp [hr]
termination_by rows.length
decreasing_by
  simp only [List.length_drop]
  omega

theorem chunk_length (rows : List Message) (k : Nat) (hk : 0 < k) :
    (chunk rows k).length = (rows.length + k - 1) / k := by
  rw [chunk]
  split
  · rename_i h
    simp only [List.length_cons]
    rw [chunk_length (rows.drop k) k hk]
    simp only [List.length_drop]
    have hle : k ≤ rows.length := h.2
    have : rows.length + k - 1 = (rows.length - k + k - 1) + k := by omega
    rw [this, Nat.add_div_right _ hk]
  · rename_i h
    push_neg at h
    have hlt : rows.length < k := h hk
    split
    · rename_i hpos
      have h1 : rows.length + k - 1 = (rows.length - 1) + k := by omega
      rw [List.length_singleton, h1, Nat.add_div_right _ hk,
        Nat.div_eq_of_lt (by omega)]
    · rename_i hz
      have h0 : rows.length = 0 := by omega
      rw [List.length_nil, h0, Nat.div_eq_of_lt (by omega)]
termination_by rows.length
decreasing_by
  simp only [List.length_drop]
  omega

theorem chunk_mem_length (rows : List Message) (k : Nat) (hk : 0 < k) :
    ∀ c ∈ chunk rows k, 1 ≤ c.length ∧ c.length ≤ k := by
  rw [chunk]
  split
  · rename_i h
    intro c hc
    rcases List.mem_cons.mp hc with hc | hc
    · subst hc
      rw [List.length_take]
      omega
    · exact chunk_mem_length (rows.drop k) k hk c hc
  · rename_i h
    push_neg at h
    have hlt : rows.length < k := h hk
    split
    · rename_i hpos
      intro c hc
      rcases List.mem_singleton.mp hc with rfl
      omega
    · intro c hc
      simp at hc
termination_by rows.length
decreasing_by
  simp only [List.length_drop]
  omega

theorem chunk_dropLast_length (rows : List Message) (k : Nat) (hk : 0 < k) :
    ∀ c ∈ (chunk rows k).dropLast, c.length = k := by
  rw [chunk]
  split
  · rename_i h
    intro c hc
    rcases hrest : chunk (rows.drop k) k with _ | ⟨c0, cs⟩
    · rw [hrest] at hc
      simp at hc
    · rw [hrest] at hc
      rw [List.dropLast_cons_of_ne_nil (by simp)] at hc
      rcases List.mem_cons.mp hc with hc | hc
      · subst hc
        rw [List.length_take]
        omega
      · have := chunk_dropLast_length (rows.drop k) k hk
        rw [hrest] at this
        exact this c hc
  · rename_i h
    split
    · intro c hc
      simp at hc
    · intro c hc
      simp at hc
termination_by rows.length
decreasing_by
  simp only [List.length_drop]
  omega

theorem deleteChunksLoop_ok (f : DeleteOracle) (hok : ∀ b, f b = none) :
    ∀ cs : List (List Message),
      deleteChunksLoop f cs
        = (cs.map (fun c => Event.deleteBatchCall (entriesOf c)), none)
  | [] => rfl
  | c :: rest => by
    simp only [deleteChunksLoop, hok (entriesOf c), List.map_cons]
    rw [deleteChunksLoop_ok f hok rest]

theorem deleteSqsMessages_ok (f : DeleteOracle) (hok : ∀ b, f b = none)
    (msgs : List Message) :
    deleteSqsMessages f msgs
      = ((chunk msgs 10).map (fun c => Event.deleteBatchCall (entriesOf c)), none) := by
  rw [deleteSqsMessages]
  split
  · rename_i h
    have : msgs = [] := List.length_eq_zero.mp h
    subst this
    rw [chunk_nil]
    rfl
  · exact deleteChunksLoop_ok f hok (chunk msgs 10)

theorem deleteChunksLoop_mem (f : DeleteOracle) :
    ∀ cs : List (List Message), ∀ ev ∈ (deleteChunksLoop f cs).1,
      ∃ c ∈ cs, ev = Event.deleteBatchCall (entriesOf c)
  | [] => by intro ev hev; simp [deleteChunksLoop] at hev
  | c :: rest => by
    intro ev hev
    simp only [deleteChunksLoop] at hev
    rcases hfc : f (entriesOf c) with _ | e
    · rw [hfc] at hev
      simp only [List.mem_cons] at hev
      rcases hev with hev | hev
      · exact ⟨c, List.mem_cons_self c rest, hev⟩
      · obtain ⟨c', hc', hev'⟩ := deleteChunksLoop_mem f rest ev hev
        exact ⟨c', List.mem_cons_of_mem c hc', hev'⟩
    · rw [hfc] at hev
      simp only [List.mem_singleton] at hev
      exact ⟨c, List.mem_cons_self c rest, hev⟩

theorem deleteChunksLoop_err (f : DeleteOracle) :
    ∀ cs : List (List Message), ∀ e : String,
      (deleteChunksLoop f cs).2 = some e → ∃ b, f b = some e
  | [] => by intro e he; simp [deleteChunksLoop] at he
  | c :: rest => by
    intro e he
    simp only [deleteChunksLoop] at he
    rcases hfc : f (entriesOf c) with _ | e'
    · rw [hfc] at he
      exact deleteChunksLoop_err f rest e he
    · rw [hfc] at he
      simp only [Option.some.injEq] at he
      exact ⟨entriesOf c, by rw [hfc, he]⟩

theorem deleteSqsMessages_err (f : DeleteOracle) (msgs : List Message) (e : String)
    (he : (deleteSqsMessages f msgs).2 = some e) : ∃ b, f b = some e := by
  rw [deleteSqsMessages] at he
  split at he
  · simp at he
  · exact deleteChunksLoop_err f (chunk msgs 10) e he

theorem dispatchLoop_events (strategy : String) (consumeFn : ConsumerFn) :
    ∀ msgs : List Message,
      (dispatchLoop strategy consumeFn msgs).1
        = msgs.map (fun m => Event.handlerCall m.body m.messageAttributes)
  | [] => rfl
  | msg :: rest => by
    rcases hc : consumeFn msg.body msg.messageAttributes with _ | e <;>
      simp only [dispatchLoop, hc, List.map_cons]
    · split <;> simp [dispatchLoop_events strategy consumeFn rest]
    · simp [dispatchLoop_events strategy consumeFn rest]

theorem dispatchLoop_toDelete_onSuccess (consumeFn : ConsumerFn) :
    ∀ msgs : List Message,
      (dispatchLoop DeleteStrategyOnSuccess consumeFn msgs).2
        = msgs.filter (fun m => (consumeFn m.body m.messageAttributes).isNone)
  | [] => rfl
  | msg :: rest => by
    simp only [dispatchLoop, List.filter_cons]
    rcases hc : consumeFn msg.body msg.messageAttributes with _ | e
    · simp only [Option.isNone_none, if_true, if_pos rfl]
      rw [dispatchLoop_toDelete_onSuccess consumeFn rest]
    · simp only [Option.isNone_some, Bool.false_eq_true, if_false]
      rw [dispatchLoop_toDelete_onSuccess consumeFn rest]

theorem dispatchLoop_toDelete_other (strategy : String) (consumeFn : ConsumerFn)
    (hs : strategy ≠ DeleteStrategyOnSuccess) :
    ∀ msgs : List Message, (dispatchLoop strategy consumeFn msgs).2 = []
  | [] => rfl
  | msg :: rest => by
    simp only [dispatchLoop]
    rcases consumeFn msg.body msg.messageAttributes with _ | e
    · rw [if_neg hs]
      exact dispatchLoop_toDelete_other strategy consumeFn hs rest
    · exact dispatchLoop_toDelete_other strategy consumeFn hs rest

theorem entriesOf_append (a b : List Message) :
    entriesOf (a ++ b) = entriesOf a ++ entriesOf b :=
  List.map_append _ a b

theorem entriesOf_flatten :
    ∀ L : List (List Message), (L.map entriesOf).flatten = entriesOf L.flatten
  | [] => rfl
  | c :: rest => by
    rw [List.map_cons, List.flatten_cons, List.flatten_cons, entriesOf_append,
      entriesOf_flatten rest]

theorem entriesOf_chunk_flatten (msgs : List Message) :
    ((chunk msgs 10).map entriesOf).flatten = entriesOf msgs := by
  rw [entriesOf_flatten, chunk_flatten msgs 10 (by omega)]

theorem pollCycle_nil (strategy : String) (consumeFn : ConsumerFn)
    (f : DeleteOracle) : pollCycle strategy consumeFn f [] = ([], none) := by
  simp [pollCycle, deleteSqsMessages, dispatchLoop]

theorem pollCycle_ok (strategy : String) (consumeFn : ConsumerFn)
    (f : DeleteOracle) (hok : ∀ b, f b = none) (msgs : List Message) :
    (pollCycle strategy consumeFn f msgs).2 = none := by
  simp only [pollCycle]
  split
  · rename_i heq
    rename_i e
    exfalso
    revert heq
    split
    · rw [deleteSqsMessages_ok f hok msgs]
      simp
    · simp
  · dsimp only
    rw [deleteSqsMessages_ok f hok]

theorem pollCycle_err (strategy : String) (consumeFn : ConsumerFn)
    (f : DeleteOracle) (msgs : List Message) (e : String)
    (he : (pollCycle strategy consumeFn f msgs).2 = some e) :
    ∃ b, f b = some e := by
  simp only [pollCycle] at he
  split at he
  · rename_i e' heq
    simp only [Option.some.injEq] at he
    subst he
    revert heq
    split
    · intro heq
      exact deleteSqsMessages_err f msgs e' heq
    · intro heq
      simp at heq
  · simp only at he
    exact deleteSqsMessages_err f _ e he

theorem pollCycle_immediate (consumeFn : ConsumerFn) (f : DeleteOracle)
    (hok : ∀ b, f b = none) (msgs : List Message) :
    pollCycle DeleteStrategyImmediate consumeFn f msgs
      = ((chunk msgs 10).map (fun c => Event.deleteBatchCall (entriesOf c))
          ++ msgs.map (fun m => Event.handlerCall m.body m.messageAttributes),
         none) := by
  simp only [pollCycle, if_pos rfl, deleteSqsMessages_ok f hok msgs]
  rw [dispatchLoop_toDelete_other DeleteStrategyImmediate consumeFn (by decide) msgs,
    dispatchLoop_events]
  simp [deleteSqsMessages]

theorem pollCycle_onSuccess (consumeFn : ConsumerFn) (f : DeleteOracle)
    (hok : ∀ b, f b = none) (msgs : List Message) :
    pollCycle DeleteStrategyOnSuccess consumeFn f msgs
      = (msgs.map (fun m => Event.handlerCall m.body m.messageAttributes)
          ++ (chunk (msgs.filter
                (fun m => (consumeFn m.body m.messageAttributes).isNone)) 10).map
              (fun c => Event.deleteBatchCall (entriesOf c)),
         none) := by
  have hne : DeleteStrategyOnSuccess ≠ DeleteStrategyImmediate := by decide
  simp only [pollCycle, if_neg hne]
  rw [dispatchLoop_toDelete_onSuccess, dispatchLoop_events,
    deleteSqsMessages_ok f hok]
  simp

theorem handleMessages_nil_return (strategy : String) (consumeFn : ConsumerFn)
    (deleteErr : DeleteOracle) :
    ∀ inputs : List CycleInput,
      (handleMessages strategy consumeFn deleteErr inputs).2 = some none →
      ∃ i : Nat, inputs[i]? = some CycleInput.cancelled
  | [] => by intro hr; simp [handleMessages] at hr
  | CycleInput.cancelled :: rest => fun _ => ⟨0, by simp⟩
  | CycleInput.receiveErr e :: rest => by
    intro hr
    simp [handleMessages] at hr
  | CycleInput.received msgs :: rest => by
    intro hr
    simp only [handleMessages] at hr
    split at hr
    · simp only at hr
      obtain ⟨i, hi⟩ :=
        handleMessages_nil_return strategy consumeFn deleteErr rest hr
      exact ⟨i + 1, by simpa using hi⟩
    · split at hr
      · simp at hr
      · simp only at hr
        obtain ⟨i, hi⟩ :=
          handleMessages_nil_return strategy consumeFn deleteErr rest hr
        exact ⟨i + 1, by simpa using hi⟩

theorem handleMessages_err_origin (strategy : String) (consumeFn : ConsumerFn)
    (deleteErr : DeleteOracle) :
    ∀ (inputs : List CycleInput) (e : String),
      (handleMessages strategy consumeFn deleteErr inputs).2 = some (some e) →
      (∃ i : Nat, inputs[i]? = some (CycleInput.receiveErr e))
      ∨ (∃ (i : Nat) (ms : List Message),
          inputs[i]? = some (CycleInput.received ms)
          ∧ (pollCycle strategy consumeFn deleteErr ms).2 = some e)
  | [] => by intro e hr; simp [handleMessages] at hr
  | CycleInput.cancelled :: rest => by
    intro e hr
    simp [handleMessages] at hr
  | CycleInput.receiveErr e' :: rest => by
    intro e hr
    simp only [handleMessages, Option.some.injEq] at hr
    subst hr
    exact Or.inl ⟨0, by simp⟩
  | CycleInput.received msgs :: rest => by
    intro e hr
    simp only [handleMessages] at hr
    split at hr
    · simp only at hr
      rcases handleMessages_err_origin strategy consumeFn deleteErr rest e hr with
        ⟨i, hi⟩ | ⟨i, ms, hi, hp⟩
      · exact Or.inl ⟨i + 1, by simpa using hi⟩
      · exact Or.inr ⟨i + 1, ms, by simpa using hi, hp⟩
    · rename_i hlen
      split at hr
      · rename_i cevs e' heq
        simp only [Option.some.injEq] at hr
        subst hr
        exact Or.inr ⟨0, msgs, by simp, by rw [heq]⟩
      · simp only at hr
        rcases handleMessages_err_origin strategy consumeFn deleteErr rest e hr with
          ⟨i, hi⟩ | ⟨i, ms, hi, hp⟩
        · exact Or.inl ⟨i + 1, by simpa using hi⟩
        · exact Or.inr ⟨i + 1, ms, by simpa using hi, hp⟩

theorem applyDefaults_DeleteStrategy (conf : SQSConf) :
    (applyDefaults conf).DeleteStrategy
      = if conf.DeleteStrategy.length = 0 then DeleteStrategyImmediate
        else conf.DeleteStrategy := by
  simp only [applyDefaults]
  split <;> split <;> split <;> split <;> rfl

theorem applyDefaults_Concurrency (conf : SQSConf) :
    (applyDefaults conf).Concurrency
      = if conf.Concurrency = 0 then DefaultConcurrency else conf.Concurrency := by
  simp only [applyDefaults]
  split <;> split <;> split <;> split <;> simp_all

theorem applyDefaults_WaitTimeSeconds (conf : SQSConf) :
    (applyDefaults conf).WaitTimeSeconds
      = if conf.WaitTimeSeconds = 0 then DefaultWaitTimeSeconds
        else conf.WaitTimeSeconds := by
  simp only [applyDefaults]
  split <;> split <;> split <;> split <;> simp_all

theorem applyDefaults_MaxNumberOfMessages (conf : SQSConf) :
    (applyDefaults conf).MaxNumberOfMessages
      = if conf.MaxNumberOfMessages = 0 then DefaultMaxNumberOfMessages
        else conf.MaxNumberOfMessages := by
  simp only [applyDefaults]
  split <;> split <;> split <;> split <;> simp_all

theorem applyDefaults_Queue (conf : SQSConf) :
    (applyDefaults conf).Queue = conf.Queue := by
  simp only [applyDefaults]
  split <;> split <;> split <;> split <;> rfl

theorem applyDefaults_VisibilityTimeout (conf : SQSConf) :
    (applyDefaults conf).VisibilityTimeout = conf.VisibilityTimeout := by
  simp only [applyDefaults]
  split <;> split <;> split <;> split <;> rfl

theorem NewSQSConsumer_ok (env : Env) (conf : SQSConf)
    (h1 : env.awsAccessKeyId ≠ "") (h2 : env.awsSecretAccessKey ≠ "")
    (h3 : env.awsRegion ≠ "") (hq : conf.Queue ≠ "") :
    NewSQSConsumer env true (some conf)
      = .ok (applyDefaults conf, { config := applyDefaults conf }) := by
  simp [NewSQSConsumer, h1, h2, h3, hq]

/-- Claim C3: for every input sequence of length n and every chunk size
k ≥ 1, `chunk` produces ⌈n/k⌉ chunks, each of size exactly k except
possibly the last which holds 1..k items, concatenating the chunks
reproduces the original sequence in order, and an empty input yields
zero chunks. -/
theorem chunk_correct (rows : List Message) (k : Nat) (hk : 1 ≤ k) :
    (chunk rows k).length = (rows.length + k - 1) / k
    ∧ (chunk rows k).flatten = rows
    ∧ (∀ c ∈ (chunk rows k).dropLast, c.length = k)
    ∧ (∀ c ∈ chunk rows k, 1 ≤ c.length ∧ c.length ≤ k)
    ∧ (rows = [] → chunk rows k = []) :=
  ⟨chunk_length rows k hk, chunk_flatten rows k hk,
   chunk_dropLast_length rows k hk, chunk_mem_length rows k hk,
   fun h => h ▸ chunk_nil k⟩

theorem chunk_correct_witness :
    (1 ≤ 2)
    ∧ ((chunk [msgA, msgB, msgC] 2).length = ([msgA, msgB, msgC].length + 2 - 1) / 2
      ∧ (chunk [msgA, msgB, msgC] 2).flatten = [msgA, msgB, msgC]
      ∧ (∀ c ∈ (chunk [msgA, msgB, msgC] 2).dropLast, c.length = 2)
      ∧ (∀ c ∈ chunk [msgA, msgB, msgC] 2, 1 ≤ c.length ∧ c.length ≤ 2)
      ∧ ([msgA, msgB, msgC] = [] → chunk [msgA, msgB, msgC] 2 = [])) :=
  ⟨by decide, chunk_correct [msgA, msgB, msgC] 2 (by decide)⟩

/-- Claim C7: every DeleteMessageBatch call issued by the acknowledgment
step carries between 1 and 10 entries, and an empty message list makes
`deleteSqsMessages` return nil without any transport call. -/
theorem deleteSqsMessages_batch_bounds (deleteErr : DeleteOracle)
    (msgs : List Message) :
    (msgs = [] → deleteSqsMessages deleteErr msgs = ([], none))
    ∧ (∀ ev ∈ (deleteSqsMessages deleteErr msgs).1,
        ∃ entries, ev = Event.deleteBatchCall entries
          ∧ 1 ≤ entries.length ∧ entries.length ≤ 10) := by
  constructor
  · intro h
    subst h
    rfl
  · intro ev hev
    rw [deleteSqsMessages] at hev
    split at hev
    · simp at hev
    · obtain ⟨c, hc, rfl⟩ := deleteChunksLoop_mem deleteErr (chunk msgs 10) ev hev
      have hlen := chunk_mem_length msgs 10 (by omega) c hc
      refine ⟨entriesOf c, rfl, ?_, ?_⟩ <;>
        · simp only [entriesOf, List.length_map]
          omega

theorem deleteSqsMessages_batch_bounds_witness :
    deleteSqsMessages okDelete [] = ([], none) :=
  (deleteSqsMessages_batch_bounds okDelete []).1 rfl

/-- Claim C9: an empty receive result makes the worker emit exactly a
receive call followed by a 1-second sleep, with no delete call and no
handler invocation for that cycle, before the loop continues. -/
theorem idle_backoff_sleep (strategy : String) (consumeFn : ConsumerFn)
    (deleteErr : DeleteOracle) (rest : List CycleInput) :
    handleMessages strategy consumeFn deleteErr (CycleInput.received [] :: rest)
      = (Event.receiveCall :: Event.sleep 1 ::
          (handleMessages strategy consumeFn deleteErr rest).1,
         (handleMessages strategy consumeFn deleteErr rest).2) := by
  simp [handleMessages]

/-- Claim C2: under the Immediate strategy, one poll cycle submits all m
received messages for deletion (the chunked delete calls, whose entries
concatenate to the full batch) before any handler invocation, regardless
of handler outcomes. -/
theorem immediate_ack_before_dispatch (consumeFn : ConsumerFn)
    (deleteErr : DeleteOracle) (msgs : List Message)
    (hok : ∀ b, deleteErr b = none) :
    pollCycle DeleteStrategyImmediate consumeFn deleteErr msgs
      = ((chunk msgs 10).map (fun c => Event.deleteBatchCall (entriesOf c))
          ++ msgs.map (fun m => Event.handlerCall m.body m.messageAttributes),
         none)
    ∧ ((chunk msgs 10).map entriesOf).flatten = entriesOf msgs :=
  ⟨pollCycle_immediate consumeFn deleteErr hok msgs, entriesOf_chunk_flatten msgs⟩

theorem immediate_ack_before_dispatch_witness :
    pollCycle DeleteStrategyImmediate failBFn okDelete [msgA, msgB]
      = ((chunk [msgA, msgB] 10).map (fun c => Event.deleteBatchCall (entriesOf c))
          ++ [msgA, msgB].map (fun m => Event.handlerCall m.body m.messageAttributes),
         none) :=
  (immediate_ack_before_dispatch failBFn okDelete [msgA, msgB] (fun _ => rfl)).1

/-- Claim C1: under the OnSuccess strategy, the delete batch built during
dispatch is exactly the subset of messages whose handler returned nil, in
original receipt order; the delete calls follow all handler invocations;
a message whose handler errored is never in the delete batch. -/
theorem onSuccess_ack_equals_successes (consumeFn : ConsumerFn)
    (deleteErr : DeleteOracle) (msgs : List Message)
    (hok : ∀ b, deleteErr b = none) :
    (dispatchLoop DeleteStrategyOnSuccess consumeFn msgs).2
      = msgs.filter (fun m => (consumeFn m.body m.messageAttributes).isNone)
    ∧ pollCycle DeleteStrategyOnSuccess consumeFn deleteErr msgs
      = (msgs.map (fun m => Event.handlerCall m.body m.messageAttributes)
          ++ (chunk (msgs.filter
                (fun m => (consumeFn m.body m.messageAttributes).isNone)) 10).map
              (fun c => Event.deleteBatchCall (entriesOf c)),
         none)
    ∧ ∀ m ∈ msgs, (consumeFn m.body m.messageAttributes).isSome →
        m ∉ (dispatchLoop DeleteStrategyOnSuccess consumeFn msgs).2 := by
  refine ⟨dispatchLoop_toDelete_onSuccess consumeFn msgs,
    pollCycle_onSuccess consumeFn deleteErr hok msgs, ?_⟩
  intro m hm hsome hmem
  rw [dispatchLoop_toDelete_onSuccess] at hmem
  have hnone := List.of_mem_filter hmem
  rw [Option.isNone_iff_eq_none] at hnone
  rw [hnone] at hsome
  simp at hsome

theorem onSuccess_ack_equals_successes_witness :
    (dispatchLoop DeleteStrategyOnSuccess failBFn [msgA, msgB, msgC]).2
      = [msgA, msgB, msgC].filter
          (fun m => (failBFn m.body m.messageAttributes).isNone) :=
  (onSuccess_ack_equals_successes failBFn okDelete [msgA, msgB, msgC]
    (fun _ => rfl)).1

/-- Claim C5: a handler error is not fatal: the cycle finishes without an
error, every message still gets its handler invocation in receipt order,
the worker loop continues to the next iteration, and under OnSuccess the
errored message is withheld from the acknowledgment batch. -/
theorem handler_errors_recoverable (strategy : String) (consumeFn : ConsumerFn)
    (deleteErr : DeleteOracle) (msgs : List Message) (rest : List CycleInput)
    (hne : msgs ≠ []) (hok : ∀ b, deleteErr b = none) :
    (pollCycle strategy consumeFn deleteErr msgs).2 = none
    ∧ (dispatchLoop strategy consumeFn msgs).1
        = msgs.map (fun m => Event.handlerCall m.body m.messageAttributes)
    ∧ (handleMessages strategy consumeFn deleteErr
        (CycleInput.received msgs :: rest)).2
        = (handleMessages strategy consumeFn deleteErr rest).2
    ∧ (∀ m ∈ msgs, (consumeFn m.body m.messageAttributes).isSome →
        m ∉ (dispatchLoop DeleteStrategyOnSuccess consumeFn msgs).2) := by
  have hlen : ¬ msgs.length = 0 := fun h0 => hne (List.length_eq_zero.mp h0)
  rcases hpc : pollCycle strategy consumeFn deleteErr msgs with ⟨cevs, r⟩
  have hr : r = none := by
    have h := pollCycle_ok strategy consumeFn deleteErr hok msgs
    rw [hpc] at h
    exact h
  subst hr
  refine ⟨rfl, dispatchLoop_events strategy consumeFn msgs, ?_, ?_⟩
  · simp only [handleMessages, if_neg hlen, hpc]
  · intro m hm hsome hmem
    rw [dispatchLoop_toDelete_onSuccess] at hmem
    have hnone := List.of_mem_filter hmem
    rw [Option.isNone_iff_eq_none] at hnone
    rw [hnone] at hsome
    simp at hsome

theorem handler_errors_recoverable_witness :
    (pollCycle DeleteStrategyOnSuccess failBFn okDelete [msgB]).2 = none :=
  (handler_errors_recoverable DeleteStrategyOnSuccess failBFn okDelete [msgB] []
    (by decide) (fun _ => rfl)).1

/-- Claim C4: the worker returns nil only via the cancellation checkpoint
at the top of an iteration; every other return is a propagated non-nil
transport error (a failed receive, or a delete error inside the cycle),
and such an error is returned immediately. -/
theorem worker_return_paths (strategy : String) (consumeFn : ConsumerFn)
    (deleteErr : DeleteOracle) (inputs rest : List CycleInput) (e : String)
    (msgs : List Message) :
    ((handleMessages strategy consumeFn deleteErr
        (CycleInput.cancelled :: rest)).2 = some none)
    ∧ ((handleMessages strategy consumeFn deleteErr
        (CycleInput.receiveErr e :: rest)).2 = some (some e))
    ∧ ((pollCycle strategy consumeFn deleteErr msgs).2 = some e →
        (handleMessages strategy consumeFn deleteErr
          (CycleInput.received msgs :: rest)).2 = some (some e))
    ∧ ((handleMessages strategy consumeFn deleteErr inputs).2 = some none →
        ∃ i : Nat, inputs[i]? = some CycleInput.cancelled)
    ∧ ((handleMessages strategy consumeFn deleteErr inputs).2 = some (some e) →
        (∃ i : Nat, inputs[i]? = some (CycleInput.receiveErr e))
        ∨ (∃ (i : Nat) (ms : List Message),
            inputs[i]? = some (CycleInput.received ms)
            ∧ (pollCycle strategy consumeFn deleteErr ms).2 = some e))
    ∧ ((pollCycle strategy consumeFn deleteErr msgs).2 = some e →
        ∃ b, deleteErr b = some e) := by
  refine ⟨rfl, rfl, ?_,
    handleMessages_nil_return strategy consumeFn deleteErr inputs,
    handleMessages_err_origin strategy consumeFn deleteErr inputs e,
    pollCycle_err strategy consumeFn deleteErr msgs e⟩
  intro hp
  have hlen : ¬ msgs.length = 0 := by
    intro h0
    rw [List.length_eq_zero.mp h0, pollCycle_nil] at hp
    simp at hp
  rcases hpc : pollCycle strategy consumeFn deleteErr msgs with ⟨cevs, r⟩
  have hr : r = some e := by
    rw [hpc] at hp
    exact hp
  subst hr
  simp only [handleMessages, if_neg hlen, hpc]

theorem worker_return_paths_witness :
    ((handleMessages DeleteStrategyImmediate okFn okDelete
        [CycleInput.cancelled]).2 = some none)
    ∧ (∃ i : Nat, ([CycleInput.cancelled] : List CycleInput)[i]?
        = some CycleInput.cancelled)
    ∧ ((handleMessages DeleteStrategyImmediate okFn okDelete
        [CycleInput.receiveErr "recv failed"]).2 = some (some "recv failed")) :=
  ⟨(worker_return_paths DeleteStrategyImmediate okFn okDelete
      [CycleInput.cancelled] [] "recv failed" []).1,
   (worker_return_paths DeleteStrategyImmediate okFn okDelete
      [CycleInput.cancelled] [] "recv failed" []).2.2.2.1 rfl,
   (worker_return_paths DeleteStrategyImmediate okFn okDelete
      [CycleInput.receiveErr "recv failed"] [] "recv failed" []).2.1⟩

/-- Claim C6 counterexample: the non-empty unrecognized strategy value
"BOGUS" is not replaced by the default Immediate at construction — the
code only tests for a zero-length value. -/
theorem unrecognized_strategy_not_replaced :
    NewSQSConsumer demoEnv true (some bogusConf)
      = Except.ok (bogusConf, { config := bogusConf })
    ∧ bogusConf.DeleteStrategy ≠ DeleteStrategyImmediate := by
  constructor
  · rfl
  · decide

/-- Claim C6 amended: only a zero-length (unset) delete-strategy value is
replaced by the default Immediate at construction; any non-empty value,
recognized or not, is retained unchanged; construction never fails on
account of the delete-strategy field. -/
theorem delete_strategy_only_empty_defaulted (env : Env) (conf : SQSConf)
    (h1 : env.awsAccessKeyId ≠ "") (h2 : env.awsSecretAccessKey ≠ "")
    (h3 : env.awsRegion ≠ "") (hq : conf.Queue ≠ "") :
    ∃ c p, NewSQSConsumer env true (some conf) = Except.ok (c, p)
      ∧ c.DeleteStrategy
          = (if conf.DeleteStrategy.length = 0 then DeleteStrategyImmediate
             else conf.DeleteStrategy) :=
  ⟨applyDefaults conf, { config := applyDefaults conf },
    NewSQSConsumer_ok env conf h1 h2 h3 hq, applyDefaults_DeleteStrategy conf⟩

theorem delete_strategy_only_empty_defaulted_witness :
    ∃ c p, NewSQSConsumer demoEnv true (some bogusConf) = Except.ok (c, p)
      ∧ c.DeleteStrategy
          = (if bogusConf.DeleteStrategy.length = 0 then DeleteStrategyImmediate
             else bogusConf.DeleteStrategy) :=
  delete_strategy_only_empty_defaulted demoEnv bogusConf
    (by decide) (by decide) (by decide) (by decide)

/-- Claim C8: construction replaces each zero-valued optional field with
its documented default (and an unset strategy with Immediate), while a
non-zero supplied value is left unchanged. -/
theorem construction_defaults (env : Env) (conf : SQSConf)
    (h1 : env.awsAccessKeyId ≠ "") (h2 : env.awsSecretAccessKey ≠ "")
    (h3 : env.awsRegion ≠ "") (hq : conf.Queue ≠ "") :
    ∃ c p, NewSQSConsumer env true (some conf) = Except.ok (c, p)
      ∧ c.Concurrency
          = (if conf.Concurrency = 0 then DefaultConcurrency
             else conf.Concurrency)
      ∧ c.WaitTimeSeconds
          = (if conf.WaitTimeSeconds = 0 then DefaultWaitTimeSeconds
             else conf.WaitTimeSeconds)
      ∧ c.MaxNumberOfMessages
          = (if conf.MaxNumberOfMessages = 0 then DefaultMaxNumberOfMessages
             else conf.MaxNumberOfMessages)
      ∧ c.DeleteStrategy
          = (if conf.DeleteStrategy.length = 0 then DeleteStrategyImmediate
             else conf.DeleteStrategy) :=
  ⟨applyDefaults conf, { config := applyDefaults conf },
    NewSQSConsumer_ok env conf h1 h2 h3 hq,
    applyDefaults_Concurrency conf, applyDefaults_WaitTimeSeconds conf,
    applyDefaults_MaxNumberOfMessages conf, applyDefaults_DeleteStrategy conf⟩

theorem construction_defaults_witness :
    ∃ c p, NewSQSConsumer demoEnv true (some zeroConf) = Except.ok (c, p)
      ∧ c.Concurrency
          = (if zeroConf.Concurrency = 0 then DefaultConcurrency
             else zeroConf.Concurrency)
      ∧ c.WaitTimeSeconds
          = (if zeroConf.WaitTimeSeconds = 0 then DefaultWaitTimeSeconds
             else zeroConf.WaitTimeSeconds)
      ∧ c.MaxNumberOfMessages
          = (if zeroConf.MaxNumberOfMessages = 0 then DefaultMaxNumberOfMessages
             else zeroConf.MaxNumberOfMessages)
      ∧ c.DeleteStrategy
          = (if zeroConf.DeleteStrategy.length = 0 then DeleteStrategyImmediate
             else zeroConf.DeleteStrategy) :=
  construction_defaults demoEnv zeroConf
    (by decide) (by decide) (by decide) (by decide)

/-- Claim C10: defaults are applied in place to the caller's
configuration object: the pool's configuration equals the caller-visible
configuration after construction (the same `SQSConf` pointer in the Go
code), which is the original configuration with exactly the four
defaulting rewrites applied, leaving the other fields (queue identifier
and visibility timeout) unchanged. -/
theorem construction_in_place_aliasing (env : Env) (conf : SQSConf)
    (h1 : env.awsAccessKeyId ≠ "") (h2 : env.awsSecretAccessKey ≠ "")
    (h3 : env.awsRegion ≠ "") (hq : conf.Queue ≠ "") :
    ∃ c p, NewSQSConsumer env true (some conf) = Except.ok (c, p)
      ∧ p.config = c
      ∧ c = applyDefaults conf
      ∧ c.Queue = conf.Queue
      ∧ c.VisibilityTimeout = conf.VisibilityTimeout :=
  ⟨applyDefaults conf, { config := applyDefaults conf },
    NewSQSConsumer_ok env conf h1 h2 h3 hq, rfl, rfl,
    applyDefaults_Queue conf, applyDefaults_VisibilityTimeout conf⟩

theorem construction_in_place_aliasing_witness :
    ∃ c p, NewSQSConsumer demoEnv true (some zeroConf) = Except.ok (c, p)
      ∧ p.config = c
      ∧ c = applyDefaults zeroConf
      ∧ c.Queue = zeroConf.Queue
      ∧ c.VisibilityTimeout = zeroConf.VisibilityTimeout :=
  construction_in_place_aliasing demoEnv zeroConf
    (by decide) (by decide) (by decide) (by decide)
